import Mathlib

/-!
Shallow embedding of the steel front end:
  * `src/crates/steel-parser/src/lexer.rs` — the character-level scanner
    (`Lexer`, `TokenStream`) with byte spans;
  * `src/src/parser.rs` — the stack-based tree assembler (`Parser`).

Source text is modelled as `List Char` (the exact sequence of Unicode scalar
values Rust's `str::chars` yields); byte offsets are recovered through an
explicit UTF-8 encoder.  Machine integers are `Int` with explicit range
checks against the 64-bit native word.  Fallible conversions return
`Option`; a failed `unwrap` in the Rust code is modelled as an explicit
`panicked` outcome.
-/

namespace Steel

/-- Source text: the sequence of chars of the Rust `&str` buffer. -/
abbrev Str := List Char

/-- Byte length of one char under UTF-8, as Rust's `char::len_utf8`. -/
def lenUtf8 (c : Char) : Nat :=
  if c.toNat < 0x80 then 1
  else if c.toNat < 0x800 then 2
  else if c.toNat < 0x10000 then 3
  else 4

/-- UTF-8 encoding of one char (byte values as `Nat`). -/
def encodeUtf8 (c : Char) : List Nat :=
  let n := c.toNat
  if n < 0x80 then [n]
  else if n < 0x800 then
    [0xC0 + n / 0x40, 0x80 + n % 0x40]
  else if n < 0x10000 then
    [0xE0 + n / 0x1000, 0x80 + n / 0x40 % 0x40, 0x80 + n % 0x40]
  else
    [0xF0 + n / 0x40000, 0x80 + n / 0x1000 % 0x40, 0x80 + n / 0x40 % 0x40,
      0x80 + n % 0x40]

/-- UTF-8 byte sequence of a string, as Rust's `str::as_bytes`. -/
def utf8Bytes (s : Str) : List Nat := s.flatMap encodeUtf8

/-- Rust `char::is_whitespace`: the Unicode `White_Space` property
(the full 25-element table). -/
def rustIsWhitespace (c : Char) : Bool :=
  let n := c.toNat
  (0x09 ≤ n && n ≤ 0x0D) || n == 0x20 || n == 0x85 || n == 0xA0 ||
    n == 0x1680 || (0x2000 ≤ n && n ≤ 0x200A) || n == 0x2028 ||
    n == 0x2029 || n == 0x202F || n == 0x205F || n == 0x3000

/-- Models Rust `char::is_numeric` (Unicode general category N = Nd/Nl/No).
The full Unicode table is elided: this keeps ASCII digits exactly, plus
representative non-ASCII numeric ranges (Arabic-Indic, Extended
Arabic-Indic, Devanagari, Tamil, fullwidth digits, Roman numerals and the
Latin-1 superscripts/fractions).  Every universally quantified theorem
below treats this predicate as opaque, so its exact non-ASCII contents do
not influence any proof about arbitrary inputs. -/
def rustIsNumeric (c : Char) : Bool :=
  let n := c.toNat
  (0x30 ≤ n && n ≤ 0x39) ||
    (0x660 ≤ n && n ≤ 0x669) || (0x6F0 ≤ n && n ≤ 0x6F9) ||
    (0x966 ≤ n && n ≤ 0x96F) || (0xBE6 ≤ n && n ≤ 0xBEF) ||
    (0xFF10 ≤ n && n ≤ 0xFF19) || (0x2160 ≤ n && n ≤ 0x2182) ||
    n == 0xB2 || n == 0xB3 || n == 0xB9 || (0xBC ≤ n && n ≤ 0xBE)

/-- ASCII decimal digit. -/
def isAsciiDigit (c : Char) : Bool := 0x30 ≤ c.toNat && c.toNat ≤ 0x39

/-- Rust `char::to_digit radix`: digit value of `0-9`, `a-z`, `A-Z`
when below the radix. -/
def toDigit (c : Char) (radix : Nat) : Option Nat :=
  let n := c.toNat
  let v? : Option Nat :=
    if 0x30 ≤ n && n ≤ 0x39 then some (n - 0x30)
    else if 0x61 ≤ n && n ≤ 0x7A then some (n - 0x61 + 10)
    else if 0x41 ≤ n && n ≤ 0x5A then some (n - 0x41 + 10)
    else none
  match v? with
  | some v => if v < radix then some v else none
  | none => none

/-- The native signed word (`isize`, 64-bit): `2 ^ 63`. -/
def isizeBound : Int := 9223372036854775808

/-- `crate::tokens::MaybeBigInt` — dual integer representation:
`Small` is the native-width `isize` inline form, `Big` the
arbitrary-precision form (its mathematical value as `Int`). -/
inductive MaybeBigInt where
  | Small (n : Int)
  | Big (n : Int)
  deriving DecidableEq, Repr

/-- Value of a digit string (most significant first) in a radix. -/
def radixVal (radix : Nat) (ds : Str) : Nat :=
  ds.foldl (fun a c => a * radix + ((toDigit c radix).getD 0)) 0

/-- Modelled from the spec: `crate::tokens::MaybeBigInt`'s `FromStr` is not
under `src/`.  Per §4.1 "numerator and denominator are each parsed
independently as arbitrary-precision integers" and §3 "Integer —
native-width or arbitrary-precision": an optional ASCII sign followed by a
nonempty run of ASCII decimal digits parses to its value, inline when it
fits the native signed 64-bit range and arbitrary-precision otherwise;
anything else (in particular any non-ASCII digit) is a parse error. -/
def MaybeBigInt.fromStr (s : Str) : Option MaybeBigInt :=
  let (neg, ds) : Bool × Str :=
    match s with
    | c :: rest =>
      if c = '-' then (true, rest)
      else if c = '+' then (false, rest)
      else (false, c :: rest)
    | [] => (false, [])
  if ds = [] then none
  else if ds.all isAsciiDigit then
    let v : Int := (radixVal 10 ds : Nat)
    let v := if neg then -v else v
    if -isizeBound ≤ v ∧ v < isizeBound then some (.Small v) else some (.Big v)
  else none

/-- Rust `isize::from_str_radix`: optional ASCII sign, nonempty digits of
the radix, with overflow outside the native signed 64-bit range an error. -/
def fromStrRadix (radix : Nat) (s : Str) : Option Int :=
  let (neg, ds) : Bool × Str :=
    match s with
    | c :: rest =>
      if c = '-' then (true, rest)
      else if c = '+' then (false, rest)
      else (false, c :: rest)
    | [] => (false, [])
  if ds = [] then none
  else if ds.all (fun c => (toDigit c radix).isSome) then
    let v : Int := (radixVal radix ds : Nat)
    let v := if neg then -v else v
    if -isizeBound ≤ v ∧ v < isizeBound then some v else none
  else none

/-- `crate::tokens::TokenType` as used by the lexer.  `NumberLiteral`
carries the source text of the literal: the Rust variant stores the parsed
`f64`, whose bit-level value is out of scope here; success of that parse is
modelled separately by `f64ParseOk`. -/
inductive TokenType where
  | OpenParen
  | CloseParen
  | QuoteTick
  | QuasiQuote
  | Unquote
  | UnquoteSplice
  | QuoteSyntax
  | QuasiQuoteSyntax
  | UnquoteSyntax
  | UnquoteSpliceSyntax
  | If
  | Define
  | Let
  | TestLet
  | Return
  | Begin
  | Lambda
  | Quote
  | DefineSyntax
  | SyntaxRules
  | Ellipses
  | Set
  | Require
  | Identifier (s : Str)
  | Keyword (s : Str)
  | BooleanLiteral (b : Bool)
  | IntegerLiteral (n : MaybeBigInt)
  | NumberLiteral (src : Str)
  | FractionLiteral (n d : MaybeBigInt)
  | CharacterLiteral (c : Char)
  | StringLiteral (s : Str)
  | Comment
  | Error
  deriving DecidableEq, Repr

/-- `lexer.rs` `TokenError` (lines 417–426). -/
inductive TokenError where
  | UnexpectedChar (c : Char)
  | IncompleteString
  | InvalidEscape
  | InvalidCharacter
  | MalformedHexInteger
  | MalformedOctalInteger
  | MalformedBinaryInteger
  deriving DecidableEq, Repr

/-- Named characters kept out of literals: see the token-scan constraints
of this development's style (no backtick or brace characters inline). -/
def backtickChar : Char := Char.ofNat 0x60
def lbraceChar : Char := Char.ofNat 0x7B
def rbraceChar : Char := Char.ofNat 0x7D

/-- `Lexer::read_word`'s loop (lines 294–312): consume until a delimiter,
whitespace or unescaped quote; a backslash consumes the following char as
well.  Returns `(consumed, rest)`. -/
def readWordLoop : Str → Str × Str
  | [] => ([], [])
  | '\\' :: rest =>
    match rest with
    | [] => (['\\'], [])
    | d :: rest2 =>
      let (cs, r) := readWordLoop rest2
      ('\\' :: d :: cs, r)
  | c :: rest =>
    if c = '(' ∨ c = '[' ∨ c = ')' ∨ c = ']' then ([], c :: rest)
    else if rustIsWhitespace c then ([], c :: rest)
    else if c = '\'' then ([], c :: rest)
    else
      let (cs, r) := readWordLoop rest
      (c :: cs, r)

/-- The reserved-word table of `Lexer::read_word` (lines 314–331). -/
def keywordLookup (s : Str) : TokenType :=
  if s = "define".data ∨ s = "defn".data ∨ s = "#%define".data then .Define
  else if s = "let".data then .Let
  else if s = "%plain-let".data then .TestLet
  else if s = "return!".data then .Return
  else if s = "begin".data then .Begin
  else if s = "lambda".data ∨ s = "fn".data ∨ s = "#%plain-lambda".data ∨
      s = "λ".data then .Lambda
  else if s = "quote".data then .Quote
  else if s = "syntax-rules".data then .SyntaxRules
  else if s = "define-syntax".data then .DefineSyntax
  else if s = "...".data then .Ellipses
  else if s = "set!".data then .Set
  else if s = "require".data then .Require
  else if s = "if".data then .If
  else .Identifier s

/-- `Lexer::read_word`: `acc` is the part of the current token consumed
before entry (the pending span); the result carries the classified token,
its full text, and the remaining input. -/
def readWord (acc : Str) (rem : Str) : TokenType × Str × Str :=
  let (cs, r) := readWordLoop rem
  (keywordLookup (acc ++ cs), acc ++ cs, r)

/-- `Lexer::read_string`'s loop (lines 74–114), after the opening quote:
returns (`some` decoded content or `none` for `Err`, the error when
failing, consumed chars, rest).  The first component is
`Except TokenError Str`: decoded buffer or the error. -/
def readStringLoop : Str → Except TokenError Str × Str × Str
  | [] => (.error .IncompleteString, [], [])
  | '"' :: rest => (.ok [], ['"'], rest)
  | '\\' :: '"' :: rest2 =>
    let (res, cs, r) := readStringLoop rest2
    (res.map ('"' :: ·), '\\' :: '"' :: cs, r)
  | '\\' :: '\\' :: rest2 =>
    let (res, cs, r) := readStringLoop rest2
    (res.map ('\\' :: ·), '\\' :: '\\' :: cs, r)
  | '\\' :: 't' :: rest2 =>
    let (res, cs, r) := readStringLoop rest2
    (res.map ('\t' :: ·), '\\' :: 't' :: cs, r)
  | '\\' :: 'n' :: rest2 =>
    let (res, cs, r) := readStringLoop rest2
    (res.map ('\n' :: ·), '\\' :: 'n' :: cs, r)
  | '\\' :: 'r' :: rest2 =>
    let (res, cs, r) := readStringLoop rest2
    (res.map ('\r' :: ·), '\\' :: 'r' :: cs, r)
  | '\\' :: '0' :: rest2 =>
    let (res, cs, r) := readStringLoop rest2
    (res.map (Char.ofNat 0 :: ·), '\\' :: '0' :: cs, r)
  | '\\' :: rest => (.error .InvalidEscape, ['\\'], rest)
  | c :: rest =>
    let (res, cs, r) := readStringLoop rest
    (res.map (c :: ·), c :: cs, r)

/-- `Lexer::read_string` (lines 70–118): eats the opening quote then runs
the loop; returns (result token or error, consumed incl. the quotes,
rest). -/
def readString (rem : Str) : Except TokenError TokenType × Str × Str :=
  match rem with
  | '"' :: rest =>
    let (res, cs, r) := readStringLoop rest
    (res.map .StringLiteral, '"' :: cs, r)
  | _ => (.error .IncompleteString, [], rem)

/-- `Lexer::read_hash_value`'s consumption loop (lines 152–164): consume
until whitespace or one of `( [ ) ]`; a backslash consumes the following
char as well. -/
def readHashLoop : Str → Str × Str
  | [] => ([], [])
  | '\\' :: rest =>
    match rest with
    | [] => (['\\'], [])
    | d :: rest2 =>
      let (cs, r) := readHashLoop rest2
      ('\\' :: d :: cs, r)
  | c :: rest =>
    if c = '(' ∨ c = '[' ∨ c = ')' ∨ c = ']' then ([], c :: rest)
    else if rustIsWhitespace c then ([], c :: rest)
    else
      let (cs, r) := readHashLoop rest
      (c :: cs, r)

/-- Modelled from the spec: `crate::tokens::parse_unicode_str` is not under
`src/`.  §4.1 describes "a fallback that accepts a code-point escape
form"; modelled as `#\u` followed by a brace-wrapped nonempty run of hex
digits denoting a Unicode scalar value. -/
def parseUnicodeStr (s : Str) : Option Char :=
  match s with
  | '#' :: '\\' :: 'u' :: b :: rest =>
    if b = lbraceChar ∧ rest.getLast? = some rbraceChar then
      let ds := rest.dropLast
      if ds ≠ [] ∧ ds.all (fun c => (toDigit c 16).isSome) then
        let v := radixVal 16 ds
        if v < 0xD800 ∨ (0xE000 ≤ v ∧ v < 0x110000) then some (Char.ofNat v)
        else none
      else none
    else none
  | _ => none

/-- Rust's `str::trim_start_matches("#\\")`: strip every leading
repetition of the two-char pattern. -/
def trimStartHashSlash : Str → Str
  | '#' :: '\\' :: rest => trimStartHashSlash rest
  | s => s

/-- `parse_char` inside `Lexer::read_hash_value` (lines 121–150): the fixed
named-character table, then the unicode-escape fallback, then
`char::from_str` (exactly one remaining char). -/
def parseCharLit (s : Str) : Option Char :=
  if s = "#\\SPACE".data ∨ s = "#\\space".data then some ' '
  else if s = "#\\\\".data then some '\\'
  else if s = "#\\tab".data ∨ s = "#\\TAB".data then some '\t'
  else if s = "#\\NEWLINE".data ∨ s = "#\\newline".data then some '\n'
  else if s = "#\\return".data ∨ s = "#\\RETURN".data then some '\r'
  else if s = "#\\)".data then some ')'
  else if s = "#\\]".data then some ']'
  else if s = "#\\[".data then some '['
  else if s = "#\\(".data then some '('
  else if s = "#\\^".data then some '^'
  else if s.take 2 = ['#', '\\'] then
    match parseUnicodeStr s with
    | some c => some c
    | none =>
      match trimStartHashSlash s with
      | [c] => some c
      | _ => none
  else none

/-- The `match self.slice()` classification of `Lexer::read_hash_value`
(lines 166–207), arm for arm; `none` is the final `_ => read_word`
fallback. -/
def hashClassify (text : Str) : Option (Except TokenError TokenType) :=
  if text = "#true".data ∨ text = "#t".data then
    some (.ok (.BooleanLiteral true))
  else if text = "#false".data ∨ text = "#f".data then
    some (.ok (.BooleanLiteral false))
  else if text = ['#', '\''] then some (.ok .QuoteSyntax)
  else if text = ['#', backtickChar] then some (.ok .QuasiQuoteSyntax)
  else if text = ['#', ','] then some (.ok .UnquoteSyntax)
  else if text = ['#', ',', '@'] then some (.ok .UnquoteSpliceSyntax)
  else if text.take 2 = ['#', 'x'] then
    match fromStrRadix 16 (text.drop 2) with
    | some n => some (.ok (.IntegerLiteral (.Small n)))
    | none => some (.error .MalformedHexInteger)
  else if text.take 2 = ['#', 'o'] then
    match fromStrRadix 8 (text.drop 2) with
    | some n => some (.ok (.IntegerLiteral (.Small n)))
    | none => some (.error .MalformedOctalInteger)
  else if text.take 2 = ['#', 'b'] then
    match fromStrRadix 2 (text.drop 2) with
    | some n => some (.ok (.IntegerLiteral (.Small n)))
    | none => some (.error .MalformedBinaryInteger)
  else if text.take 2 = ['#', ':'] then some (.ok (.Keyword text))
  else if text.take 2 = ['#', '\\'] then
    match parseCharLit text with
    | some c => some (.ok (.CharacterLiteral c))
    | none => some (.error .InvalidCharacter)
  else none

/-- `Lexer::read_hash_value` (lines 120–208), entered after the `#` was
eaten; returns (result, token text, rest). -/
def readHashValue (rem : Str) : Except TokenError TokenType × Str × Str :=
  let (cs, rest) := readHashLoop rem
  let text := '#' :: cs
  match hashClassify text with
  | some res => (res, text, rest)
  | none =>
    let (ty, text2, r2) := readWord text rest
    (.ok ty, text2, r2)

/-- Result of one of `read_number`'s scanning loops: either it stopped at a
delimiter/whitespace/end (nothing further eaten), or it ate an unexpected
char and aborts to generic word reading. -/
inductive NumScan where
  | stopped (consumed rest : Str)
  | aborted (consumed rest : Str)

/-- `Lexer::read_number`'s first loop (lines 214–229): consume numeric
chars; `( ) [ ]`, `.`, `/`, `e`, `E` and whitespace stop without eating;
anything else is eaten and aborts to word reading. -/
def numLoop1 : Str → NumScan
  | [] => .stopped [] []
  | c :: rest =>
    if rustIsNumeric c then
      match numLoop1 rest with
      | .stopped cs r => .stopped (c :: cs) r
      | .aborted cs r => .aborted (c :: cs) r
    else if c = '(' ∨ c = ')' ∨ c = '[' ∨ c = ']' then .stopped [] (c :: rest)
    else if c = '.' ∨ c = '/' then .stopped [] (c :: rest)
    else if c = 'e' ∨ c = 'E' then .stopped [] (c :: rest)
    else if rustIsWhitespace c then .stopped [] (c :: rest)
    else .aborted [c] rest

/-- `read_number`'s float-phase loop (lines 233–249): numeric chars and at
most one exponent marker; `( [ ) ]` and whitespace stop; anything else is
eaten and aborts to word reading. -/
def numLoop2 : Bool → Str → NumScan
  | _, [] => .stopped [] []
  | hasE, c :: rest =>
    if rustIsNumeric c then
      match numLoop2 hasE rest with
      | .stopped cs r => .stopped (c :: cs) r
      | .aborted cs r => .aborted (c :: cs) r
    else if (c = 'e' ∨ c = 'E') ∧ hasE = false then
      match numLoop2 true rest with
      | .stopped cs r => .stopped (c :: cs) r
      | .aborted cs r => .aborted (c :: cs) r
    else if c = '(' ∨ c = '[' ∨ c = ')' ∨ c = ']' then .stopped [] (c :: rest)
    else if rustIsWhitespace c then .stopped [] (c :: rest)
    else .aborted [c] rest

/-- `read_number`'s denominator loop (lines 259–271). -/
def numLoop3 : Str → NumScan
  | [] => .stopped [] []
  | c :: rest =>
    if rustIsNumeric c then
      match numLoop3 rest with
      | .stopped cs r => .stopped (c :: cs) r
      | .aborted cs r => .aborted (c :: cs) r
    else if c = '(' ∨ c = '[' ∨ c = ')' ∨ c = ']' then .stopped [] (c :: rest)
    else if rustIsWhitespace c then .stopped [] (c :: rest)
    else .aborted [c] rest

/-- First element split at the first char satisfying `p`:
`some (before, after)` with the matching char dropped. -/
def splitFirst (p : Char → Bool) : Str → Option (Str × Str)
  | [] => none
  | c :: rest =>
    if p c then some ([], rest)
    else
      match splitFirst p rest with
      | none => none
      | some (a, b) => some (c :: a, b)

/-- Strip one leading ASCII sign. -/
def stripSign : Str → Str
  | '+' :: rest => rest
  | '-' :: rest => rest
  | s => s

/-- Whether Rust's `str::parse::<f64>` succeeds on this text: an optional
sign, then `inf`/`infinity`/`nan` (case-insensitive) or a decimal mantissa
(`d+`, `d+.d*` or `.d+`) with an optional exponent `e|E sign? d+`.  The
parsed numeric value is out of scope (floating point); only acceptance is
modelled. -/
def f64ParseOk (s : Str) : Bool :=
  let s1 := stripSign s
  let low := s1.map Char.toLower
  if low = "inf".data ∨ low = "infinity".data ∨ low = "nan".data then true
  else
    let mantissaOk : Str → Bool := fun m =>
      match splitFirst (fun c => c = '.') m with
      | none => !m.isEmpty && m.all isAsciiDigit
      | some (ip, fp) =>
        ip.all isAsciiDigit && fp.all isAsciiDigit &&
          (!ip.isEmpty || !fp.isEmpty)
    match splitFirst (fun c => c = 'e' ∨ c = 'E') s1 with
    | none => mantissaOk s1
    | some (m, ex) =>
      let ex2 := stripSign ex
      mantissaOk m && !ex2.isEmpty && ex2.all isAsciiDigit

/-- The float phase of `read_number` (lines 231–254), after the `.`/`e`/`E`
at `h` was eaten; `none` models the `unwrap` panic of
`text.parse::<f64>()`. -/
def floatTail (afterInt : Str) (h : Char) (hasE : Bool) (r2 : Str) :
    Option (TokenType × Str × Str) :=
  match numLoop2 hasE r2 with
  | .aborted cs2 r3 => some (readWord (afterInt ++ h :: cs2) r3)
  | .stopped cs2 r3 =>
    let text := afterInt ++ h :: cs2
    match text.getLast? with
    | some 'e' => some (readWord text r3)
    | some 'E' => some (readWord text r3)
    | _ =>
      if f64ParseOk text then some (.NumberLiteral text, text, r3) else none

/-- `Lexer::read_number` (lines 210–283).  `acc` is the already-consumed
sign prefix; `none` models a panicking `unwrap` on a failed numeric
conversion. -/
def readNumber (acc : Str) (rem : Str) : Option (TokenType × Str × Str) :=
  match numLoop1 rem with
  | .aborted cs r => some (readWord (acc ++ cs) r)
  | .stopped cs r =>
    let afterInt := acc ++ cs
    match r with
    | '.' :: r2 => floatTail afterInt '.' false r2
    | 'e' :: r2 => floatTail afterInt 'e' true r2
    | 'E' :: r2 => floatTail afterInt 'E' true r2
    | '/' :: r2 =>
      match numLoop3 r2 with
      | .aborted cs2 r3 => some (readWord (afterInt ++ '/' :: cs2) r3)
      | .stopped cs2 r3 =>
        if cs2.isEmpty then some (readWord (afterInt ++ ['/']) r3)
        else
          match MaybeBigInt.fromStr afterInt, MaybeBigInt.fromStr cs2 with
          | some n, some d =>
            some (.FractionLiteral n d, afterInt ++ '/' :: cs2, r3)
          | _, _ => none
    | _ =>
      match MaybeBigInt.fromStr afterInt with
      | some n => some (.IntegerLiteral n, afterInt, r)
      | none => none

/-- `Lexer::read_rest_of_line` (lines 285–291): eat up to and including a
newline. -/
def readRestOfLine : Str → Str × Str
  | [] => ([], [])
  | '\n' :: rest => (['\n'], rest)
  | c :: rest =>
    let (cs, r) := readRestOfLine rest
    (c :: cs, r)

/-- One step of `impl Iterator for Lexer` (lines 428–504): either end of
input, one token (result, leading whitespace, token text, rest), or a
panicking `unwrap` inside `read_number`. -/
inductive LexStep where
  | eof (ws : Str)
  | tok (res : Except TokenError TokenType) (ws text rem : Str)
  | panicked (ws : Str)

/-- Wraps `read_number` as the dispatcher does (`Some(Ok(self.read_number()))`). -/
def numStep (ws acc rem : Str) : LexStep :=
  match readNumber acc rem with
  | some (ty, text, r) => .tok (.ok ty) ws text r
  | none => .panicked ws

/-- Wraps `read_word` as the dispatcher does (`Some(Ok(self.read_word()))`). -/
def wordStep (ws acc rem : Str) : LexStep :=
  let (ty, text, r) := readWord acc rem
  .tok (.ok ty) ws text r

/-- The `match self.chars.peek()` dispatch of `impl Iterator for
Lexer::next` (lines 437–502), applied after whitespace was consumed into
`ws`.  The arms appear in source order; the final arm is the
`UnexpectedChar` error. -/
def lexDispatch (ws : Str) : Str → LexStep
  | [] => .eof ws
  | c :: rest =>
    if c = ';' then
      let (cs, r2) := readRestOfLine rest
      .tok (.ok .Comment) ws (c :: cs) r2
    else if c = '"' then
      let (res, text, r2) := readString (c :: rest)
      .tok res ws text r2
    else if c = '(' ∨ c = '[' ∨ c = lbraceChar then
      .tok (.ok .OpenParen) ws [c] rest
    else if c = ')' ∨ c = ']' ∨ c = rbraceChar then
      .tok (.ok .CloseParen) ws [c] rest
    else if c = '\'' then .tok (.ok .QuoteTick) ws [c] rest
    else if c = backtickChar then .tok (.ok .QuasiQuote) ws [c] rest
    else if c = ',' then
      match rest with
      | '@' :: rest2 => .tok (.ok .UnquoteSplice) ws [c, '@'] rest2
      | _ => .tok (.ok .Unquote) ws [c] rest
    else if c = '+' then
      match rest with
      | d :: _ =>
        if rustIsNumeric d then numStep ws ['+'] rest
        else .tok (.ok (.Identifier ['+'])) ws ['+'] rest
      | [] => .tok (.ok (.Identifier ['+'])) ws ['+'] []
    else if c = '-' then
      match rest with
      | d :: _ =>
        if rustIsNumeric d then numStep ws ['-'] rest
        else wordStep ws ['-'] rest
      | [] => wordStep ws ['-'] []
    else if c = '#' then
      let (res, text, r2) := readHashValue rest
      .tok res ws text r2
    else if (¬ rustIsWhitespace c ∧ ¬ rustIsNumeric c) ∨ c = '_' then
      wordStep ws [] (c :: rest)
    else if rustIsNumeric c then numStep ws [] (c :: rest)
    else .tok (.error (.UnexpectedChar c)) ws [c] rest

/-- `impl Iterator for Lexer::next` (lines 428–504): skip whitespace
(resetting the span start), then dispatch on the next char. -/
def lexNext (input : Str) : LexStep :=
  lexDispatch (input.takeWhile rustIsWhitespace)
    (input.dropWhile rustIsWhitespace)

/-- A token of `TokenStream` (lines 394–413): class, carried source text,
byte span `[startB, endB)`.  Rust's `Token` carries `lexer.slice()` as its
text; here the text is the char run the scanner consumed for the token,
and span fidelity (text = span-addressed substring) is the content of the
span-fidelity theorem below. -/
structure Tok where
  ty : TokenType
  source : Str
  startB : Nat
  endB : Nat
  deriving DecidableEq, Repr

/-- `impl Iterator for TokenStream::next` iterated to exhaustion: maps
lexical errors to the `Error` marker class, drops comments when
`skip` is set, stamps byte spans.  The second component records whether
the underlying scanner panicked.  Fuel is the remaining input length,
ample since every token consumes at least one char. -/
def streamAux (skip : Bool) : Nat → Nat → Str → List Tok × Bool
  | 0, _, _ => ([], false)
  | fuel + 1, posB, rem =>
    match lexNext rem with
    | .eof _ => ([], false)
    | .panicked _ => ([], true)
    | .tok res ws text rest =>
      let s := posB + (utf8Bytes ws).length
      let e := s + (utf8Bytes text).length
      let ty := match res with | .ok t => t | .error _ => TokenType.Error
      let (ts, p) := streamAux skip fuel e rest
      if ty = .Comment ∧ skip then (ts, p) else (⟨ty, text, s, e⟩ :: ts, p)

/-- `TokenStream::new(input, skip, None)` collected to a list, plus a
panic flag. -/
def tokenStreamRun (skip : Bool) (s : Str) : List Tok × Bool :=
  streamAux skip (s.length + 1) 0 s

/-- `impl Iterator for Lexer` collected to the list of raw results, plus a
panic flag. -/
def lexAllAux : Nat → Str → List (Except TokenError TokenType) × Bool
  | 0, _ => ([], false)
  | fuel + 1, rem =>
    match lexNext rem with
    | .eof _ => ([], false)
    | .panicked _ => ([], true)
    | .tok res _ _ rest =>
      let (ts, p) := lexAllAux fuel rest
      (res :: ts, p)

/-- Modelled from the spec: `crate::lexer::Tokenizer`, the scanner feeding
`Parser` in `src/src/parser.rs`, is not under `src/` (only the
steel-parser scanner is).  §2 and §4.1 describe a single scanner design,
so the token source of the parser is modelled as the result sequence of
the scanner embedded above. -/
def tokenizerRun (s : Str) : List (Except TokenError TokenType) × Bool :=
  lexAllAux (s.length + 1) s

/-- `parser.rs` `Expr` (lines 8–12). -/
inductive Expr where
  | Atom (t : TokenType)
  | ListVal (xs : List Expr)

/-- `parser.rs` `ParseError` (lines 14–22). -/
inductive ParseError where
  | TokenErr (e : TokenError)
  | Unexpected (t : TokenType)
  | UnexpectedEOF
  deriving DecidableEq, Repr

/-- Modelled from the spec: `Token::is_reserved_keyword` lives in the
missing `crate::lexer`.  §4.3 and §7 call a reserved keyword or a stray
closing delimiter standing alone at top level an *unexpected token*, so
the reserved words of §3 plus `CloseParen` answer true. -/
def isReservedKeyword : TokenType → Bool
  | .If | .Define | .Let | .TestLet | .Return | .Begin | .Lambda
  | .Quote | .DefineSyntax | .SyntaxRules | .Ellipses | .Set | .Require
  | .CloseParen => true
  | _ => false

/-- `Parser::read_from_tokens` (lines 39–66): the explicit stack of
sibling sequences.  Returns the completed expression together with the
tokens not yet consumed. -/
def readFromTokens :
    List (Except TokenError TokenType) → List (List Expr) → List Expr →
    Except ParseError (Expr × List (Except TokenError TokenType))
  | [], _, _ => .error .UnexpectedEOF
  | .error e :: _, _, _ => .error (.TokenErr e)
  | .ok t :: rest, stack, cur =>
    if t = .OpenParen then readFromTokens rest (cur :: stack) []
    else if t = .CloseParen then
      match stack with
      | prev :: stack2 => readFromTokens rest stack2 (prev ++ [Expr.ListVal cur])
      | [] => .ok (.ListVal cur, rest)
    else readFromTokens rest stack (cur ++ [Expr.Atom t])

/-- `impl Iterator for Parser::next` (lines 69–82) over an explicit token
list; `none` is end of input.  On success the unconsumed tokens are
returned; after an error iteration stops (Rust's `collect` below), so no
remainder is carried. -/
def parseNext (toks : List (Except TokenError TokenType)) :
    Option (Except ParseError (Expr × List (Except TokenError TokenType))) :=
  match toks with
  | [] => none
  | .error e :: _ => some (.error (.TokenErr e))
  | .ok t :: rest =>
    if t = .OpenParen then some (readFromTokens rest [] [])
    else if isReservedKeyword t then some (.error (.Unexpected t))
    else some (.ok (.Atom t, rest))

/-- `Parser::new(s).collect::<Result<Vec<Expr>>>()`: top-level expressions
in order, stopping at the first error. -/
def parseCollect : Nat → List (Except TokenError TokenType) →
    Except ParseError (List Expr)
  | 0, _ => .ok []
  | fuel + 1, toks =>
    match parseNext toks with
    | none => .ok []
    | some (.error e) => .error e
    | some (.ok (ex, rem)) =>
      match parseCollect fuel rem with
      | .error e2 => .error e2
      | .ok exs => .ok (ex :: exs)

/-- Parse a whole source buffer: `Parser::new(input).collect()`. -/
def parseAll (s : Str) : Except ParseError (List Expr) :=
  parseCollect (s.length + 1) ((tokenizerRun s).1)

/-- Whether a scanner result avoids the unexpected-character error. -/
def errNoUnexpected {α : Type} : Except TokenError α → Bool
  | .error (.UnexpectedChar _) => false
  | _ => true

/-- Whether a scanner step avoided the unexpected-character error. -/
def stepNoUnexpectedChar : LexStep → Bool
  | .tok res _ _ _ => errNoUnexpected res
  | _ => true

/-- Chars the `read_hash_value` loop always consumes: not whitespace, not
one of `( [ ) ]`, and not a backslash (which eats in pairs). -/
def hashConsumable (c : Char) : Prop :=
  ¬(c = '(' ∨ c = '[' ∨ c = ')' ∨ c = ']') ∧ rustIsWhitespace c = false ∧
    c ≠ '\\'

instance (c : Char) : Decidable (hashConsumable c) := by
  unfold hashConsumable; infer_instance

/-- Total consumed-plus-rest of a numeric scanning loop. -/
def NumScan.join : NumScan → Str
  | .stopped cs r => cs ++ r
  | .aborted cs r => cs ++ r

/-! ### Consumption decomposition: every reader splits its input into the
chars it consumed followed by the rest it leaves. -/

theorem readWordLoop_decomp (rem : Str) :
    (readWordLoop rem).1 ++ (readWordLoop rem).2 = rem := by
  induction rem using readWordLoop.induct <;> simp_all [readWordLoop]

theorem readHashLoop_decomp (rem : Str) :
    (readHashLoop rem).1 ++ (readHashLoop rem).2 = rem := by
  induction rem using readHashLoop.induct <;> simp_all [readHashLoop]

theorem readStringLoop_decomp (rem : Str) :
    (readStringLoop rem).2.1 ++ (readStringLoop rem).2.2 = rem := by
  induction rem using readStringLoop.induct <;> simp_all [readStringLoop]

theorem readRestOfLine_decomp (rem : Str) :
    (readRestOfLine rem).1 ++ (readRestOfLine rem).2 = rem := by
  induction rem using readRestOfLine.induct <;> simp_all [readRestOfLine]

theorem numLoop1_join (rem : Str) : (numLoop1 rem).join = rem := by
  induction rem using numLoop1.induct <;> simp_all [numLoop1, NumScan.join]

theorem numLoop2_join : ∀ (rem : Str) (hasE : Bool),
    (numLoop2 hasE rem).join = rem := by
  intro rem
  induction rem with
  | nil => intro hasE; simp [numLoop2, NumScan.join]
  | cons c rest ih =>
    intro hasE
    simp only [numLoop2]
    split_ifs with h1 h2 h3 h4
    · cases h : numLoop2 hasE rest <;>
        (have h5 := ih hasE; rw [h] at h5; simp_all [NumScan.join])
    · cases h : numLoop2 true rest <;>
        (have h5 := ih true; rw [h] at h5; simp_all [NumScan.join])
    · simp [NumScan.join]
    · simp [NumScan.join]
    · simp [NumScan.join]

theorem numLoop3_join : ∀ (rem : Str), (numLoop3 rem).join = rem := by
  intro rem
  induction rem with
  | nil => simp [numLoop3, NumScan.join]
  | cons c rest ih =>
    simp only [numLoop3]
    split_ifs with h1 h2 h3
    · cases h : numLoop3 rest <;> (rw [h] at ih; simp_all [NumScan.join])
    · simp [NumScan.join]
    · simp [NumScan.join]
    · simp [NumScan.join]

theorem readWord_decomp (acc rem : Str) :
    (readWord acc rem).2.1 ++ (readWord acc rem).2.2 = acc ++ rem := by
  have h := readWordLoop_decomp rem
  simp [readWord, List.append_assoc, h]

theorem readString_decomp (rem : Str) :
    (readString rem).2.1 ++ (readString rem).2.2 = rem := by
  unfold readString
  split
  · next rest =>
    have h := readStringLoop_decomp rest
    cases hl : readStringLoop rest with
    | mk res pr =>
      rw [hl] at h
      simp_all
  · rfl

theorem readHashValue_decomp (rem : Str) :
    (readHashValue rem).2.1 ++ (readHashValue rem).2.2 = '#' :: rem := by
  unfold readHashValue
  have hj := readHashLoop_decomp rem
  cases hl : readHashLoop rem with
  | mk cs rest =>
    rw [hl] at hj
    simp only at hj
    cases hc : hashClassify ('#' :: cs) with
    | some res =>
      simp only [hc, List.cons_append, hj]
    | none =>
      simp only [hc]
      have hw := readWord_decomp ('#' :: cs) rest
      cases hrw : readWord ('#' :: cs) rest with
      | mk ty2 pr =>
        rw [hrw] at hw
        simp only [hrw]
        simp only at hw
        rw [hw, List.cons_append, hj]

theorem floatTail_decomp (afterInt : Str) (h : Char) (hasE : Bool) (r2 : Str)
    (ty : TokenType) (text r : Str)
    (he : floatTail afterInt h hasE r2 = some (ty, text, r)) :
    text ++ r = afterInt ++ h :: r2 := by
  have hj := numLoop2_join r2 hasE
  unfold floatTail at he
  cases hs : numLoop2 hasE r2 with
  | aborted cs2 r3 =>
    rw [hs] at he hj
    simp only [NumScan.join] at hj
    simp only [Option.some.injEq] at he
    have hw := readWord_decomp (afterInt ++ h :: cs2) r3
    rw [he] at hw
    simp only at hw
    rw [hw]
    simp [List.append_assoc, hj]
  | stopped cs2 r3 =>
    rw [hs] at he hj
    simp only [NumScan.join] at hj
    simp only at he
    split at he
    · simp only [Option.some.injEq] at he
      have hw := readWord_decomp (afterInt ++ h :: cs2) r3
      rw [he] at hw
      simp only at hw
      rw [hw]
      simp [List.append_assoc, hj]
    · simp only [Option.some.injEq] at he
      have hw := readWord_decomp (afterInt ++ h :: cs2) r3
      rw [he] at hw
      simp only at hw
      rw [hw]
      simp [List.append_assoc, hj]
    · split at he
      · simp only [Option.some.injEq, Prod.mk.injEq] at he
        obtain ⟨-, htext, hr⟩ := he
        subst htext hr
        simp [List.append_assoc, hj]
      · simp at he

theorem readNumber_decomp (acc rem : Str) (ty : TokenType) (text r : Str)
    (he : readNumber acc rem = some (ty, text, r)) :
    text ++ r = acc ++ rem := by
  have hj := numLoop1_join rem
  unfold readNumber at he
  cases hs : numLoop1 rem with
  | aborted cs rr =>
    rw [hs] at he hj
    simp only [NumScan.join] at hj
    simp only [Option.some.injEq] at he
    have hw := readWord_decomp (acc ++ cs) rr
    rw [he] at hw
    simp only at hw
    rw [hw]
    simp [List.append_assoc, hj]
  | stopped cs rr =>
    rw [hs] at he hj
    simp only [NumScan.join] at hj
    simp only at he
    split at he
    · next r2 =>
      have := floatTail_decomp (acc ++ cs) '.' false r2 ty text r he
      rw [this]
      simp_all [List.append_assoc]
    · next r2 =>
      have := floatTail_decomp (acc ++ cs) 'e' true r2 ty text r he
      rw [this]
      simp_all [List.append_assoc]
    · next r2 =>
      have := floatTail_decomp (acc ++ cs) 'E' true r2 ty text r he
      rw [this]
      simp_all [List.append_assoc]
    · next r2 =>
      have hj3 := numLoop3_join r2
      cases hs3 : numLoop3 r2 with
      | aborted cs2 r3 =>
        rw [hs3] at he hj3
        simp only [NumScan.join] at hj3
        simp only [Option.some.injEq] at he
        have hw := readWord_decomp (acc ++ cs ++ '/' :: cs2) r3
        rw [he] at hw
        simp only at hw
        rw [hw]
        simp_all [List.append_assoc]
      | stopped cs2 r3 =>
        rw [hs3] at he hj3
        simp only [NumScan.join] at hj3
        simp only at he
        split at he
        · next hemp =>
          simp only [Option.some.injEq] at he
          have hw := readWord_decomp (acc ++ cs ++ ['/']) r3
          rw [he] at hw
          simp only at hw
          rw [hw]
          simp only [List.isEmpty_iff] at hemp
          subst hemp
          simp_all [List.append_assoc]
        · split at he
          · simp only [Option.some.injEq, Prod.mk.injEq] at he
            obtain ⟨-, htext, hr⟩ := he
            subst htext hr
            simp_all [List.append_assoc]
          · simp at he
    · split at he
      · simp only [Option.some.injEq, Prod.mk.injEq] at he
        obtain ⟨-, htext, hr⟩ := he
        subst htext hr
        simp_all
      · simp at he

theorem wordStep_tok (ws acc rem : Str) (res : Except TokenError TokenType)
    (ws2 text r : Str) (he : wordStep ws acc rem = .tok res ws2 text r) :
    ws2 = ws ∧ text ++ r = acc ++ rem := by
  unfold wordStep at he
  have hw := readWord_decomp acc rem
  cases hrw : readWord acc rem with
  | mk ty2 pr =>
    rw [hrw] at he hw
    simp only [LexStep.tok.injEq] at he
    obtain ⟨-, hws, htext, hr⟩ := he
    subst hws htext hr
    simp_all

theorem numStep_tok (ws acc rem : Str) (res : Except TokenError TokenType)
    (ws2 text r : Str) (he : numStep ws acc rem = .tok res ws2 text r) :
    ws2 = ws ∧ text ++ r = acc ++ rem := by
  unfold numStep at he
  cases hn : readNumber acc rem with
  | none => rw [hn] at he; simp at he
  | some v =>
    obtain ⟨ty0, text0, r0⟩ := v
    rw [hn] at he
    simp only [LexStep.tok.injEq] at he
    obtain ⟨-, hws, htext, hr⟩ := he
    subst hws htext hr
    exact ⟨rfl, readNumber_decomp acc rem ty0 text0 r0 hn⟩

theorem lexDispatch_decomp (ws rem0 : Str) (res : Except TokenError TokenType)
    (ws2 text r : Str) (he : lexDispatch ws rem0 = .tok res ws2 text r) :
    ws2 = ws ∧ text ++ r = rem0 := by
  rcases rem0 with _ | ⟨c, rest⟩
  · simp [lexDispatch] at he
  · simp only [lexDispatch] at he
    by_cases h1 : c = ';'
    · rw [if_pos h1] at he
      cases hrl : readRestOfLine rest with
      | mk cs r2 =>
        rw [hrl] at he
        simp only [LexStep.tok.injEq] at he
        obtain ⟨-, hws, htext, hrem⟩ := he
        subst hws htext hrem
        have hx := readRestOfLine_decomp rest
        rw [hrl] at hx
        simp only at hx
        simp [hx]
    · rw [if_neg h1] at he
      by_cases h2 : c = '"'
      · rw [if_pos h2] at he
        cases hrs : readString (c :: rest) with
        | mk res2 pr =>
          rw [hrs] at he
          simp only [LexStep.tok.injEq] at he
          obtain ⟨-, hws, htext, hrem⟩ := he
          subst hws htext hrem
          have hx := readString_decomp (c :: rest)
          rw [hrs] at hx
          simpa using hx
      · rw [if_neg h2] at he
        by_cases h3 : c = '(' ∨ c = '[' ∨ c = lbraceChar
        · rw [if_pos h3] at he
          simp only [LexStep.tok.injEq] at he
          obtain ⟨-, hws, htext, hrem⟩ := he
          subst hws htext hrem
          simp
        · rw [if_neg h3] at he
          by_cases h4 : c = ')' ∨ c = ']' ∨ c = rbraceChar
          · rw [if_pos h4] at he
            simp only [LexStep.tok.injEq] at he
            obtain ⟨-, hws, htext, hrem⟩ := he
            subst hws htext hrem
            simp
          · rw [if_neg h4] at he
            by_cases h5 : c = '\''
            · rw [if_pos h5] at he
              simp only [LexStep.tok.injEq] at he
              obtain ⟨-, hws, htext, hrem⟩ := he
              subst hws htext hrem
              simp
            · rw [if_neg h5] at he
              by_cases h6 : c = backtickChar
              · rw [if_pos h6] at he
                simp only [LexStep.tok.injEq] at he
                obtain ⟨-, hws, htext, hrem⟩ := he
                subst hws htext hrem
                simp
              · rw [if_neg h6] at he
                by_cases h7 : c = ','
                · rw [if_pos h7] at he
                  rcases rest with _ | ⟨d, rest2⟩
                  · simp only [LexStep.tok.injEq] at he
                    obtain ⟨-, hws, htext, hrem⟩ := he
                    subst hws htext hrem
                    simp
                  · by_cases hat : d = '@'
                    · subst hat
                      simp only [LexStep.tok.injEq] at he
                      obtain ⟨-, hws, htext, hrem⟩ := he
                      subst hws htext hrem
                      simp
                    · have hred : (match d :: rest2 with
                          | '@' :: rest3 => LexStep.tok (.ok .UnquoteSplice) ws [c, '@'] rest3
                          | x => LexStep.tok (.ok .Unquote) ws [c] (d :: rest2)) =
                          LexStep.tok (.ok .Unquote) ws [c] (d :: rest2) := by
                        split
                        · next heq =>
                          exact absurd ((List.cons.injEq _ _ _ _).mp heq).1 hat
                        · rfl
                      rw [hred] at he
                      simp only [LexStep.tok.injEq] at he
                      obtain ⟨-, hws, htext, hrem⟩ := he
                      subst hws htext hrem
                      simp
                · rw [if_neg h7] at he
                  by_cases h8 : c = '+'
                  · rw [if_pos h8] at he
                    rcases rest with _ | ⟨d, tail⟩
                    · simp only [LexStep.tok.injEq] at he
                      obtain ⟨-, hws, htext, hrem⟩ := he
                      subst hws htext hrem
                      simp [h8]
                    · simp only at he
                      by_cases hnum : rustIsNumeric d
                      · rw [if_pos hnum] at he
                        obtain ⟨hws, hx⟩ := numStep_tok ws ['+'] (d :: tail) res ws2 text r he
                        subst hws
                        simp only [List.cons_append, List.nil_append] at hx
                        exact ⟨rfl, by rw [hx, h8]⟩
                      · rw [if_neg hnum] at he
                        simp only [LexStep.tok.injEq] at he
                        obtain ⟨-, hws, htext, hrem⟩ := he
                        subst hws htext hrem
                        simp [h8]
                  · rw [if_neg h8] at he
                    by_cases h9 : c = '-'
                    · rw [if_pos h9] at he
                      rcases rest with _ | ⟨d, tail⟩
                      · obtain ⟨hws, hx⟩ := wordStep_tok ws ['-'] [] res ws2 text r he
                        subst hws
                        simp only [List.append_nil] at hx
                        exact ⟨rfl, by rw [hx, h9]⟩
                      · simp only at he
                        by_cases hnum : rustIsNumeric d
                        · rw [if_pos hnum] at he
                          obtain ⟨hws, hx⟩ := numStep_tok ws ['-'] (d :: tail) res ws2 text r he
                          subst hws
                          simp only [List.cons_append, List.nil_append] at hx
                          exact ⟨rfl, by rw [hx, h9]⟩
                        · rw [if_neg hnum] at he
                          obtain ⟨hws, hx⟩ := wordStep_tok ws ['-'] (d :: tail) res ws2 text r he
                          subst hws
                          simp only [List.cons_append, List.nil_append] at hx
                          exact ⟨rfl, by rw [hx, h9]⟩
                    · rw [if_neg h9] at he
                      by_cases h10 : c = '#'
                      · rw [if_pos h10] at he
                        have hx := readHashValue_decomp rest
                        cases hrh : readHashValue rest with
                        | mk res2 pr =>
                          rw [hrh] at he hx
                          simp only [LexStep.tok.injEq] at he
                          obtain ⟨-, hws, htext, hrem⟩ := he
                          subst hws htext hrem
                          simp only at hx
                          exact ⟨rfl, by rw [hx, h10]⟩
                      · rw [if_neg h10] at he
                        by_cases h11 : (¬ rustIsWhitespace c ∧ ¬ rustIsNumeric c) ∨ c = '_'
                        · rw [if_pos h11] at he
                          obtain ⟨hws, hx⟩ := wordStep_tok ws [] (c :: rest) res ws2 text r he
                          subst hws
                          simpa using hx
                        · rw [if_neg h11] at he
                          by_cases h12 : rustIsNumeric c
                          · rw [if_pos h12] at he
                            obtain ⟨hws, hx⟩ := numStep_tok ws [] (c :: rest) res ws2 text r he
                            subst hws
                            simpa using hx
                          · rw [if_neg h12] at he
                            simp only [LexStep.tok.injEq] at he
                            obtain ⟨-, hws, htext, hrem⟩ := he
                            subst hws htext hrem
                            simp

theorem lexNext_decomp (input : Str) (res : Except TokenError TokenType)
    (ws text rem : Str) (he : lexNext input = .tok res ws text rem) :
    ws ++ (text ++ rem) = input := by
  unfold lexNext at he
  obtain ⟨hws, hj⟩ := lexDispatch_decomp _ _ res ws text rem he
  subst hws
  rw [hj, List.takeWhile_append_dropWhile]

theorem utf8Bytes_append (a b : Str) :
    utf8Bytes (a ++ b) = utf8Bytes a ++ utf8Bytes b := by
  simp [utf8Bytes]

theorem streamAux_fidelity (skip : Bool) :
    ∀ (fuel : Nat) (pre rem : Str) (t : Tok),
      t ∈ (streamAux skip fuel (utf8Bytes pre).length rem).1 →
      t.startB ≤ t.endB ∧
        ((utf8Bytes (pre ++ rem)).drop t.startB).take (t.endB - t.startB) =
          utf8Bytes t.source := by
  intro fuel
  induction fuel with
  | zero => intro pre rem t ht; simp [streamAux] at ht
  | succ n ih =>
    intro pre rem t ht
    rw [streamAux] at ht
    cases hl : lexNext rem with
    | eof ws => rw [hl] at ht; simp at ht
    | panicked ws => rw [hl] at ht; simp at ht
    | tok res ws text rest =>
      rw [hl] at ht
      have hdec := lexNext_decomp rem res ws text rest hl
      have hsrc : pre ++ rem = (pre ++ ws) ++ (text ++ rest) := by
        rw [← hdec]; simp [List.append_assoc]
      have hlen : (utf8Bytes pre).length + (utf8Bytes ws).length =
          (utf8Bytes (pre ++ ws)).length := by
        rw [utf8Bytes_append, List.length_append]
      have hlen2 : (utf8Bytes pre).length + (utf8Bytes ws).length +
          (utf8Bytes text).length = (utf8Bytes (pre ++ ws ++ text)).length := by
        rw [utf8Bytes_append, utf8Bytes_append, List.length_append,
          List.length_append]
      simp only at ht
      cases hstream : streamAux skip n
          ((utf8Bytes pre).length + (utf8Bytes ws).length +
            (utf8Bytes text).length) rest with
      | mk ts p =>
        rw [hstream] at ht
        have hts : ∀ t2, t2 ∈ ts →
            t2.startB ≤ t2.endB ∧
              ((utf8Bytes (pre ++ rem)).drop t2.startB).take
                (t2.endB - t2.startB) = utf8Bytes t2.source := by
          intro t2 ht2
          have hmem : t2 ∈ (streamAux skip n
              (utf8Bytes (pre ++ ws ++ text)).length rest).1 := by
            rw [← hlen2, hstream]
            exact ht2
          have := ih (pre ++ ws ++ text) rest t2 hmem
          rwa [show (pre ++ ws ++ text) ++ rest = pre ++ rem by
            rw [hsrc]; simp [List.append_assoc]] at this
        have hmain : ∀ ty0 : TokenType,
            t ∈ Tok.mk ty0 text
                ((utf8Bytes pre).length + (utf8Bytes ws).length)
                ((utf8Bytes pre).length + (utf8Bytes ws).length +
                  (utf8Bytes text).length) :: ts →
            t.startB ≤ t.endB ∧
              ((utf8Bytes (pre ++ rem)).drop t.startB).take
                (t.endB - t.startB) = utf8Bytes t.source := by
          intro ty0 hmem
          rcases List.mem_cons.mp hmem with heq | hmem2
          · subst heq
            refine ⟨Nat.le_add_right _ _, ?_⟩
            simp only [Nat.add_sub_cancel_left]
            have e1 : utf8Bytes ((pre ++ ws) ++ (text ++ rest)) =
                utf8Bytes (pre ++ ws) ++ (utf8Bytes text ++ utf8Bytes rest) := by
              rw [utf8Bytes_append (pre ++ ws), utf8Bytes_append text]
            rw [hsrc, e1, hlen, List.drop_left, List.take_left]
          · exact hts t hmem2
        cases res with
        | ok tk =>
          simp only at ht
          by_cases hc : tk = TokenType.Comment ∧ skip = true
          · rw [if_pos hc] at ht
            exact hts t ht
          · rw [if_neg hc] at ht
            exact hmain tk ht
        | error e =>
          simp only at ht
          rw [if_neg (by simp)] at ht
          exact hmain TokenType.Error ht

theorem errNoUnexpected_map {α β : Type} (f : α → β) (r : Except TokenError α) :
    errNoUnexpected (r.map f) = errNoUnexpected r := by
  cases r with
  | ok a => rfl
  | error e => cases e <;> rfl

theorem readStringLoop_res (rem : Str) :
    errNoUnexpected (readStringLoop rem).1 = true := by
  induction rem using readStringLoop.induct <;>
    simp_all only [readStringLoop] <;>
    first
    | rfl
    | (rw [errNoUnexpected_map]; assumption)

theorem readString_res (rem : Str) :
    errNoUnexpected (readString rem).1 = true := by
  unfold readString
  split
  · next rest =>
    have h := readStringLoop_res rest
    cases hl : readStringLoop rest with
    | mk res pr =>
      rw [hl] at h
      simpa [errNoUnexpected_map] using h
  · rfl

theorem hashClassify_res (text : Str) (res : Except TokenError TokenType)
    (h : hashClassify text = some res) : errNoUnexpected res = true := by
  unfold hashClassify at h
  by_cases h1 : text = "#true".data ∨ text = "#t".data
  · rw [if_pos h1] at h
    simp only [Option.some.injEq] at h
    subst h
    rfl
  · rw [if_neg h1] at h
    by_cases h2 : text = "#false".data ∨ text = "#f".data
    · rw [if_pos h2] at h
      simp only [Option.some.injEq] at h
      subst h
      rfl
    · rw [if_neg h2] at h
      by_cases h3 : text = ['#', '\'']
      · rw [if_pos h3] at h
        simp only [Option.some.injEq] at h
        subst h
        rfl
      · rw [if_neg h3] at h
        by_cases h4 : text = ['#', backtickChar]
        · rw [if_pos h4] at h
          simp only [Option.some.injEq] at h
          subst h
          rfl
        · rw [if_neg h4] at h
          by_cases h5 : text = ['#', ',']
          · rw [if_pos h5] at h
            simp only [Option.some.injEq] at h
            subst h
            rfl
          · rw [if_neg h5] at h
            by_cases h6 : text = ['#', ',', '@']
            · rw [if_pos h6] at h
              simp only [Option.some.injEq] at h
              subst h
              rfl
            · rw [if_neg h6] at h
              by_cases h7 : text.take 2 = ['#', 'x']
              · rw [if_pos h7] at h
                cases hr : fromStrRadix 16 (text.drop 2) <;> rw [hr] at h <;>
                  (simp only [Option.some.injEq] at h; subst h; rfl)
              · rw [if_neg h7] at h
                by_cases h8 : text.take 2 = ['#', 'o']
                · rw [if_pos h8] at h
                  cases hr : fromStrRadix 8 (text.drop 2) <;> rw [hr] at h <;>
                    (simp only [Option.some.injEq] at h; subst h; rfl)
                · rw [if_neg h8] at h
                  by_cases h9 : text.take 2 = ['#', 'b']
                  · rw [if_pos h9] at h
                    cases hr : fromStrRadix 2 (text.drop 2) <;> rw [hr] at h <;>
                      (simp only [Option.some.injEq] at h; subst h; rfl)
                  · rw [if_neg h9] at h
                    by_cases h10 : text.take 2 = ['#', ':']
                    · rw [if_pos h10] at h
                      simp only [Option.some.injEq] at h
                      subst h
                      rfl
                    · rw [if_neg h10] at h
                      by_cases h11 : text.take 2 = ['#', '\\']
                      · rw [if_pos h11] at h
                        cases hr : parseCharLit text <;> rw [hr] at h <;>
                          (simp only [Option.some.injEq] at h; subst h; rfl)
                      · rw [if_neg h11] at h
                        simp at h

theorem readHashValue_res (rem : Str) :
    errNoUnexpected (readHashValue rem).1 = true := by
  unfold readHashValue
  cases hl : readHashLoop rem with
  | mk cs rest =>
    simp only
    cases hc : hashClassify ('#' :: cs) with
    | some res => simpa using hashClassify_res ('#' :: cs) res hc
    | none =>
      simp only
      cases hrw : readWord ('#' :: cs) rest with
      | mk ty2 pr => rfl

theorem wordStep_res (ws acc rem : Str) :
    stepNoUnexpectedChar (wordStep ws acc rem) = true := by
  unfold wordStep
  cases hrw : readWord acc rem with
  | mk ty2 pr => rfl

theorem numStep_res (ws acc rem : Str) :
    stepNoUnexpectedChar (numStep ws acc rem) = true := by
  unfold numStep
  cases hn : readNumber acc rem with
  | none => rfl
  | some v => obtain ⟨ty0, text0, r0⟩ := v; rfl

theorem dropWhile_head_false (p : Char → Bool) :
    ∀ (l : Str) (c : Char) (rest : Str), l.dropWhile p = c :: rest →
      p c = false := by
  intro l
  induction l with
  | nil => intro c rest h; simp at h
  | cons a l2 ih =>
    intro c rest h
    rw [List.dropWhile_cons] at h
    by_cases hp : p a
    · rw [if_pos hp] at h
      exact ih c rest h
    · rw [if_neg hp] at h
      obtain ⟨h1, -⟩ := List.cons.injEq a l2 c rest |>.mp h
      subst h1
      simpa using hp

theorem lexDispatch_res (ws : Str) (c : Char) (rest : Str)
    (hwsf : rustIsWhitespace c = false) :
    stepNoUnexpectedChar (lexDispatch ws (c :: rest)) = true := by
  simp only [lexDispatch]
  by_cases h1 : c = ';'
  · rw [if_pos h1]
    cases hrl : readRestOfLine rest with
    | mk cs r2 => rfl
  · rw [if_neg h1]
    by_cases h2 : c = '"'
    · rw [if_pos h2]
      cases hrs : readString (c :: rest) with
      | mk res2 pr =>
        have hx := readString_res (c :: rest)
        rw [hrs] at hx
        simpa [stepNoUnexpectedChar] using hx
    · rw [if_neg h2]
      by_cases h3 : c = '(' ∨ c = '[' ∨ c = lbraceChar
      · rw [if_pos h3]; rfl
      · rw [if_neg h3]
        by_cases h4 : c = ')' ∨ c = ']' ∨ c = rbraceChar
        · rw [if_pos h4]; rfl
        · rw [if_neg h4]
          by_cases h5 : c = '\''
          · rw [if_pos h5]; rfl
          · rw [if_neg h5]
            by_cases h6 : c = backtickChar
            · rw [if_pos h6]; rfl
            · rw [if_neg h6]
              by_cases h7 : c = ','
              · rw [if_pos h7]
                split <;> rfl
              · rw [if_neg h7]
                by_cases h8 : c = '+'
                · rw [if_pos h8]
                  split
                  · split
                    · exact numStep_res ws ['+'] _
                    · rfl
                  · rfl
                · rw [if_neg h8]
                  by_cases h9 : c = '-'
                  · rw [if_pos h9]
                    split
                    · split
                      · exact numStep_res ws ['-'] _
                      · exact wordStep_res ws ['-'] _
                    · exact wordStep_res ws ['-'] []
                  · rw [if_neg h9]
                    by_cases h10 : c = '#'
                    · rw [if_pos h10]
                      cases hrh : readHashValue rest with
                      | mk res2 pr =>
                        have hx := readHashValue_res rest
                        rw [hrh] at hx
                        simpa [stepNoUnexpectedChar] using hx
                    · rw [if_neg h10]
                      by_cases h11 : (¬ rustIsWhitespace c ∧ ¬ rustIsNumeric c) ∨ c = '_'
                      · rw [if_pos h11]
                        exact wordStep_res ws [] (c :: rest)
                      · rw [if_neg h11]
                        by_cases h12 : rustIsNumeric c
                        · rw [if_pos h12]
                          exact numStep_res ws [] (c :: rest)
                        · exfalso
                          apply h11
                          left
                          exact ⟨by simp [hwsf], by simpa using h12⟩

theorem lexNext_res (s : Str) : stepNoUnexpectedChar (lexNext s) = true := by
  unfold lexNext
  rcases hd : s.dropWhile rustIsWhitespace with _ | ⟨c, rest⟩
  · rfl
  · exact lexDispatch_res _ c rest (dropWhile_head_false _ s c rest hd)

theorem toDigit_bounds (c : Char) (r : Nat) (h : (toDigit c r).isSome = true) :
    (0x30 ≤ c.toNat ∧ c.toNat ≤ 0x39) ∨ (0x61 ≤ c.toNat ∧ c.toNat ≤ 0x7A) ∨
      (0x41 ≤ c.toNat ∧ c.toNat ≤ 0x5A) := by
  simp only [toDigit] at h
  split_ifs at h with g1 g2 g3 <;> simp_all

theorem toDigit_consumable (c : Char) (r : Nat) (h : (toDigit c r).isSome = true) :
    hashConsumable c ∧ c.toNat < 0x80 := by
  have hb := toDigit_bounds c r h
  constructor
  · refine ⟨?_, ?_, ?_⟩
    · intro hx
      rcases hx with h1 | h1 | h1 | h1 <;> subst h1 <;>
        exact absurd hb (by decide)
    · rcases hb with ⟨h1, h2⟩ | ⟨h1, h2⟩ | ⟨h1, h2⟩ <;>
        (simp only [rustIsWhitespace, Bool.or_eq_false_iff,
          Bool.and_eq_false_iff, beq_eq_false_iff_ne, ne_eq,
          decide_eq_false_iff_not, decide_eq_true_eq, Nat.not_le]
         omega)
    · intro h1
      subst h1
      exact absurd hb (by decide)
  · omega

theorem readHashLoop_all (l : Str) (h : ∀ c ∈ l, hashConsumable c) :
    readHashLoop l = (l, []) := by
  induction l using readHashLoop.induct <;> simp_all [readHashLoop, hashConsumable]

theorem fromStrRadix_digits (r : Nat) (ds : Str) (hne : ds ≠ [])
    (hdig : ∀ c ∈ ds, (toDigit c r).isSome = true) :
    fromStrRadix r ds =
      if (radixVal r ds : Int) < isizeBound then some ((radixVal r ds : Int))
      else none := by
  rcases ds with _ | ⟨c, rest⟩
  · exact absurd rfl hne
  · have hc := hdig c (List.mem_cons_self c rest)
    have hcm : c ≠ '-' := fun h1 => by subst h1; simp [toDigit] at hc
    have hcp : c ≠ '+' := fun h1 => by subst h1; simp [toDigit] at hc
    unfold fromStrRadix
    simp only
    rw [if_neg hcm, if_neg hcp]
    simp only
    rw [if_neg (List.cons_ne_nil c rest)]
    rw [if_pos (by simpa [List.all_eq_true] using hdig)]
    simp only [Bool.false_eq_true, if_false]
    have h0 : (0 : Int) ≤ ((radixVal r (c :: rest) : Nat) : Int) :=
      Int.ofNat_nonneg _
    have hbp : (0 : Int) < isizeBound := by norm_num [isizeBound]
    by_cases hlt : ((radixVal r (c :: rest) : Nat) : Int) < isizeBound
    · rw [if_pos ⟨by omega, hlt⟩, if_pos hlt]
    · rw [if_neg (by omega), if_neg hlt]

theorem hashClassify_hex (ds : Str) :
    hashClassify ('#' :: 'x' :: ds) =
      match fromStrRadix 16 ds with
      | some n => some (.ok (.IntegerLiteral (.Small n)))
      | none => some (.error .MalformedHexInteger) := by
  unfold hashClassify
  rw [if_neg (by rintro (h | h) <;> simp at h)]
  rw [if_neg (by rintro (h | h) <;> simp at h)]
  rw [if_neg (by intro h; simp at h)]
  rw [if_neg (by intro h; simp [backtickChar] at h)]
  rw [if_neg (by intro h; simp at h)]
  rw [if_neg (by intro h; simp at h)]
  rw [if_pos (by simp)]
  simp

theorem hashClassify_octal (ds : Str) :
    hashClassify ('#' :: 'o' :: ds) =
      match fromStrRadix 8 ds with
      | some n => some (.ok (.IntegerLiteral (.Small n)))
      | none => some (.error .MalformedOctalInteger) := by
  unfold hashClassify
  rw [if_neg (by rintro (h | h) <;> simp at h)]
  rw [if_neg (by rintro (h | h) <;> simp at h)]
  rw [if_neg (by intro h; simp at h)]
  rw [if_neg (by intro h; simp [backtickChar] at h)]
  rw [if_neg (by intro h; simp at h)]
  rw [if_neg (by intro h; simp at h)]
  rw [if_neg (by intro h; simp at h)]
  rw [if_pos (by simp)]
  simp

theorem hashClassify_binary (ds : Str) :
    hashClassify ('#' :: 'b' :: ds) =
      match fromStrRadix 2 ds with
      | some n => some (.ok (.IntegerLiteral (.Small n)))
      | none => some (.error .MalformedBinaryInteger) := by
  unfold hashClassify
  rw [if_neg (by rintro (h | h) <;> simp at h)]
  rw [if_neg (by rintro (h | h) <;> simp at h)]
  rw [if_neg (by intro h; simp at h)]
  rw [if_neg (by intro h; simp [backtickChar] at h)]
  rw [if_neg (by intro h; simp at h)]
  rw [if_neg (by intro h; simp at h)]
  rw [if_neg (by intro h; simp at h)]
  rw [if_neg (by intro h; simp at h)]
  rw [if_pos (by simp)]
  simp

theorem readHashValue_radix (pc : Char) (radix : Nat) (err : TokenError)
    (ds : Str) (hcons : hashConsumable pc)
    (hdigcons : ∀ c ∈ ds, hashConsumable c)
    (hcls : hashClassify ('#' :: pc :: ds) =
      match fromStrRadix radix ds with
      | some n => some (.ok (.IntegerLiteral (.Small n)))
      | none => some (.error err)) :
    readHashValue (pc :: ds) =
      ((match fromStrRadix radix ds with
        | some n => .ok (.IntegerLiteral (.Small n))
        | none => .error err), '#' :: pc :: ds, []) := by
  unfold readHashValue
  rw [readHashLoop_all (pc :: ds) (by
    intro c hc
    rcases List.mem_cons.mp hc with h1 | h1
    · subst h1; exact hcons
    · exact hdigcons c h1)]
  simp only
  rw [hcls]
  cases fromStrRadix radix ds <;> rfl

theorem lexDispatch_hash (ws : Str) (rest : Str) :
    lexDispatch ws ('#' :: rest) =
      LexStep.tok (readHashValue rest).1 ws (readHashValue rest).2.1
        (readHashValue rest).2.2 := by
  simp only [lexDispatch]
  rw [if_neg (by decide)]
  rw [if_neg (by decide)]
  rw [if_neg (by decide)]
  rw [if_neg (by decide)]
  rw [if_neg (by decide)]
  rw [if_neg (by decide)]
  rw [if_neg (by decide)]
  rw [if_neg (by decide)]
  rw [if_neg (by decide)]
  rw [if_pos trivial]

theorem lexNext_hashHead (l : Str) : lexNext ('#' :: l) = lexDispatch [] ('#' :: l) := by
  unfold lexNext
  rw [List.takeWhile_cons_of_neg (by decide), List.dropWhile_cons_of_neg (by decide)]

theorem utf8Bytes_length_ascii (l : Str) (h : ∀ c ∈ l, c.toNat < 0x80) :
    (utf8Bytes l).length = l.length := by
  induction l with
  | nil => rfl
  | cons c rest ih =>
    have hc : c.toNat < 0x80 := h c (List.mem_cons_self c rest)
    have hrest := ih (fun c2 hc2 => h c2 (List.mem_cons.mpr (Or.inr hc2)))
    simp only [utf8Bytes, List.flatMap_cons, List.length_append] at hrest ⊢
    rw [hrest]
    have he : (encodeUtf8 c).length = 1 := by
      unfold encodeUtf8
      rw [if_pos hc]
      rfl
    rw [he]
    simp [Nat.add_comm]

theorem lexNext_radix (pc : Char) (radix : Nat) (err : TokenError)
    (hcase : (pc = 'x' ∧ radix = 16 ∧ err = .MalformedHexInteger) ∨
             (pc = 'o' ∧ radix = 8 ∧ err = .MalformedOctalInteger) ∨
             (pc = 'b' ∧ radix = 2 ∧ err = .MalformedBinaryInteger))
    (ds : Str) (hdig : ∀ c ∈ ds, (toDigit c radix).isSome = true) :
    lexNext ('#' :: pc :: ds) =
      .tok (match fromStrRadix radix ds with
            | some n => .ok (.IntegerLiteral (.Small n))
            | none => .error err) [] ('#' :: pc :: ds) [] := by
  have hdigcons : ∀ c ∈ ds, hashConsumable c :=
    fun c hc => (toDigit_consumable c radix (hdig c hc)).1
  rw [lexNext_hashHead, lexDispatch_hash]
  rcases hcase with ⟨hpc, hrad, herr⟩ | ⟨hpc, hrad, herr⟩ | ⟨hpc, hrad, herr⟩ <;>
    subst hpc hrad herr
  · rw [readHashValue_radix 'x' 16 .MalformedHexInteger ds (by decide)
      hdigcons (hashClassify_hex ds)]
  · rw [readHashValue_radix 'o' 8 .MalformedOctalInteger ds (by decide)
      hdigcons (hashClassify_octal ds)]
  · rw [readHashValue_radix 'b' 2 .MalformedBinaryInteger ds (by decide)
      hdigcons (hashClassify_binary ds)]

theorem tokenStreamRun_radix (pc : Char) (radix : Nat) (err : TokenError)
    (hcase : (pc = 'x' ∧ radix = 16 ∧ err = .MalformedHexInteger) ∨
             (pc = 'o' ∧ radix = 8 ∧ err = .MalformedOctalInteger) ∨
             (pc = 'b' ∧ radix = 2 ∧ err = .MalformedBinaryInteger))
    (ds : Str) (hdig : ∀ c ∈ ds, (toDigit c radix).isSome = true) :
    tokenStreamRun true ('#' :: pc :: ds) =
      ([Tok.mk (match fromStrRadix radix ds with
          | some n => TokenType.IntegerLiteral (.Small n)
          | none => TokenType.Error) ('#' :: pc :: ds) 0 (2 + ds.length)],
        false) := by
  have hlen : (utf8Bytes ('#' :: pc :: ds)).length = 2 + ds.length := by
    rw [utf8Bytes_length_ascii]
    · simp only [List.length_cons]
      omega
    · intro c hc
      rcases List.mem_cons.mp hc with h1 | hc2
      · subst h1; decide
      · rcases List.mem_cons.mp hc2 with h1 | hc3
        · subst h1
          rcases hcase with ⟨hpc, -, -⟩ | ⟨hpc, -, -⟩ | ⟨hpc, -, -⟩ <;>
            subst hpc <;> decide
        · exact (toDigit_consumable c radix (hdig c hc3)).2
  unfold tokenStreamRun
  have hf : ('#' :: pc :: ds).length + 1 = (ds.length + 2) + 1 := by
    simp only [List.length_cons]
  rw [hf]
  rw [streamAux]
  rw [lexNext_radix pc radix err hcase ds hdig]
  simp only [utf8Bytes, List.flatMap_nil, List.length_nil, Nat.zero_add,
    Nat.add_zero]
  rw [show (ds.length + 2 : Nat) = (ds.length + 1) + 1 from rfl]
  rw [streamAux]
  rw [show lexNext [] = LexStep.eof [] from rfl]
  cases hfr : fromStrRadix radix ds with
  | some n =>
    rw [if_neg (by simp)]
    rw [show (('#' :: pc :: ds).flatMap encodeUtf8).length = 2 + ds.length
      from hlen]
  | none =>
    rw [if_neg (by simp)]
    rw [show (('#' :: pc :: ds).flatMap encodeUtf8).length = 2 + ds.length
      from hlen]

/-- C1: Span fidelity — for every input buffer, every skip-comments
setting, and every token emitted by the token stream, the span is a
well-formed half-open byte interval (`start ≤ end`) and the UTF-8
substring of the source buffer addressed by the token's span equals the
token's carried source text exactly. -/
theorem C1_span_fidelity (skip : Bool) (s : Str) (t : Tok)
    (ht : t ∈ (tokenStreamRun skip s).1) :
    t.startB ≤ t.endB ∧
      ((utf8Bytes s).drop t.startB).take (t.endB - t.startB) =
        utf8Bytes t.source := by
  have h := streamAux_fidelity skip (s.length + 1) [] s t (by
    unfold tokenStreamRun at ht
    exact ht)
  simpa using h

/-- C1 witness: the fidelity instance at the concrete input `a`. -/
theorem C1_span_fidelity_witness :
    (Tok.mk (.Identifier ['a']) ['a'] 0 1).startB ≤
        (Tok.mk (.Identifier ['a']) ['a'] 0 1).endB ∧
      ((utf8Bytes ['a']).drop (Tok.mk (.Identifier ['a']) ['a'] 0 1).startB).take
          ((Tok.mk (.Identifier ['a']) ['a'] 0 1).endB -
            (Tok.mk (.Identifier ['a']) ['a'] 0 1).startB) =
        utf8Bytes (Tok.mk (.Identifier ['a']) ['a'] 0 1).source :=
  C1_span_fidelity true ['a'] (Tok.mk (.Identifier ['a']) ['a'] 0 1)
    (by decide)

/-- C2 counterexample: `#x8000000000000000` (2^63, one above the native
signed 64-bit maximum) does not lex to an Integer token — the scanner
returns the malformed-hex error, refuting the arbitrary-precision
reading of radix literals. -/
theorem C2_counterexample :
    lexNext "#x8000000000000000".data =
      .tok (.error .MalformedHexInteger) [] "#x8000000000000000".data [] :=
  rfl

/-- C2 (amended): radix literals `#x`/`#o`/`#b` parse with NATIVE
precision — for a nonempty run of digits valid in the radix, a value
within the native signed 64-bit range yields an Integer token of exactly
that value, while an out-of-range value yields the radix-specific error
(surfaced as an Error-marker token with full span by the stream). -/
theorem C2_radix_native_precision (pc : Char) (radix : Nat)
    (err : TokenError)
    (hcase : (pc = 'x' ∧ radix = 16 ∧ err = .MalformedHexInteger) ∨
             (pc = 'o' ∧ radix = 8 ∧ err = .MalformedOctalInteger) ∨
             (pc = 'b' ∧ radix = 2 ∧ err = .MalformedBinaryInteger))
    (ds : Str) (hne : ds ≠ [])
    (hdig : ∀ c ∈ ds, (toDigit c radix).isSome = true) :
    lexNext ('#' :: pc :: ds) =
      .tok (if (radixVal radix ds : Int) < isizeBound
            then .ok (.IntegerLiteral (.Small ((radixVal radix ds : Int))))
            else .error err) [] ('#' :: pc :: ds) [] ∧
    tokenStreamRun true ('#' :: pc :: ds) =
      ([Tok.mk (if (radixVal radix ds : Int) < isizeBound
          then TokenType.IntegerLiteral (.Small ((radixVal radix ds : Int)))
          else TokenType.Error) ('#' :: pc :: ds) 0 (2 + ds.length)],
        false) := by
  have hfr := fromStrRadix_digits radix ds hne hdig
  constructor
  · rw [lexNext_radix pc radix err hcase ds hdig, hfr]
    by_cases hlt : (radixVal radix ds : Int) < isizeBound
    · rw [if_pos hlt, if_pos hlt]
    · rw [if_neg hlt, if_neg hlt]
  · rw [tokenStreamRun_radix pc radix err hcase ds hdig, hfr]
    by_cases hlt : (radixVal radix ds : Int) < isizeBound
    · rw [if_pos hlt, if_pos hlt]
    · rw [if_neg hlt, if_neg hlt]

/-- C2 witness: the amended statement at `#x1A` (value 26, in range). -/
theorem C2_radix_native_precision_witness :
    lexNext ('#' :: 'x' :: "1A".data) =
      .tok (if (radixVal 16 "1A".data : Int) < isizeBound
            then .ok (.IntegerLiteral (.Small ((radixVal 16 "1A".data : Int))))
            else .error .MalformedHexInteger) [] ('#' :: 'x' :: "1A".data) [] ∧
    tokenStreamRun true ('#' :: 'x' :: "1A".data) =
      ([Tok.mk (if (radixVal 16 "1A".data : Int) < isizeBound
          then TokenType.IntegerLiteral (.Small ((radixVal 16 "1A".data : Int)))
          else TokenType.Error) ('#' :: 'x' :: "1A".data) 0
          (2 + "1A".data.length)], false) :=
  C2_radix_native_precision 'x' 16 .MalformedHexInteger
    (Or.inl ⟨rfl, rfl, rfl⟩) "1A".data (by decide) (by decide)

/-- C3: numeric degrade — each of `1e`, `1ee`, `1.2e5.4`, `1E10/4`,
`1.45#`, `3-`, `1/`, `1//4`, `1/4.0`, given alone, lexes as exactly one
Identifier token whose text and byte span cover the entire input. -/
theorem C3_numeric_degrade :
    tokenStreamRun true "1e".data =
      ([Tok.mk (.Identifier "1e".data) "1e".data 0 2], false) ∧
    tokenStreamRun true "1ee".data =
      ([Tok.mk (.Identifier "1ee".data) "1ee".data 0 3], false) ∧
    tokenStreamRun true "1.2e5.4".data =
      ([Tok.mk (.Identifier "1.2e5.4".data) "1.2e5.4".data 0 7], false) ∧
    tokenStreamRun true "1E10/4".data =
      ([Tok.mk (.Identifier "1E10/4".data) "1E10/4".data 0 6], false) ∧
    tokenStreamRun true "1.45#".data =
      ([Tok.mk (.Identifier "1.45#".data) "1.45#".data 0 5], false) ∧
    tokenStreamRun true "3-".data =
      ([Tok.mk (.Identifier "3-".data) "3-".data 0 2], false) ∧
    tokenStreamRun true "1/".data =
      ([Tok.mk (.Identifier "1/".data) "1/".data 0 2], false) ∧
    tokenStreamRun true "1//4".data =
      ([Tok.mk (.Identifier "1//4".data) "1//4".data 0 4], false) ∧
    tokenStreamRun true "1/4.0".data =
      ([Tok.mk (.Identifier "1/4.0".data) "1/4.0".data 0 5], false) :=
  ⟨rfl, rfl, rfl, rfl, rfl, rfl, rfl, rfl, rfl⟩

/-- C5: the no-panic claim fails on the code — on the single-char input
U+0663 (ARABIC-INDIC DIGIT THREE), accepted by `char::is_numeric` but
rejected by the ASCII-only integer parse, `read_number` reaches
`self.slice().parse().unwrap()` with a failing parse: the embedded
scanner reaches the explicit panic outcome. -/
theorem C5_panic_on_unicode_digit :
    lexNext [Char.ofNat 0x663] = .panicked [] ∧
      (tokenStreamRun true [Char.ofNat 0x663]).2 = true :=
  ⟨rfl, rfl⟩

/-- C7: unbalanced nesting — `(`, `(abc`, `((((ab 1 2) (` each fail with
unexpected end of input; `())` fails with unexpected token at the stray
closing delimiter. -/
theorem C7_unbalanced_nesting :
    parseAll "(".data = .error .UnexpectedEOF ∧
    parseAll "(abc".data = .error .UnexpectedEOF ∧
    parseAll "((((ab 1 2) (".data = .error .UnexpectedEOF ∧
    parseAll "())".data = .error (.Unexpected .CloseParen) :=
  ⟨rfl, rfl, rfl, rfl⟩

/-- C8: one top-level expression per invocation — a CloseGroup seen with an
empty frame stack returns the just-closed sequence immediately, leaving
every remaining token unconsumed; subsequent invocations then consume
them, as on `() 1 2`. -/
theorem C8_one_toplevel_per_invocation :
    (∀ (toks : List (Except TokenError TokenType)) (cur : List Expr),
        readFromTokens ((.ok .CloseParen) :: toks) [] cur =
          .ok (.ListVal cur, toks)) ∧
    (∀ toks : List (Except TokenError TokenType),
        parseNext ((.ok .OpenParen) :: (.ok .CloseParen) :: toks) =
          some (.ok (.ListVal [], toks))) ∧
    parseAll "() 1 2".data = .ok [.ListVal [],
      .Atom (.IntegerLiteral (.Small 1)), .Atom (.IntegerLiteral (.Small 2))] :=
  ⟨fun _ _ => rfl, fun _ => rfl, rfl⟩

/-- C9: integer width transparency — `9223372036854775808` (one above the
native signed 64-bit maximum) lexes as one arbitrary-precision Integer
token of exactly that value; `0` and `-0` lex as native-width zero. -/
theorem C9_integer_width_transparency :
    tokenStreamRun true "9223372036854775808".data =
      ([Tok.mk (.IntegerLiteral (.Big 9223372036854775808))
          "9223372036854775808".data 0 19], false) ∧
    tokenStreamRun true "0".data =
      ([Tok.mk (.IntegerLiteral (.Small 0)) "0".data 0 1], false) ∧
    tokenStreamRun true "-0".data =
      ([Tok.mk (.IntegerLiteral (.Small 0)) "-0".data 0 2], false) :=
  ⟨rfl, rfl, rfl⟩

/-- C10: the unexpected-character error is unreachable — for every input,
one scanner step never produces `TokenError::UnexpectedChar`: after
whitespace skipping, every char is dispatched to a specific handler or to
the word/number catch-alls, so the final error arm is dead. -/
theorem C10_unexpected_char_unreachable (s : Str) :
    stepNoUnexpectedChar (lexNext s) = true := lexNext_res s

/-- C4 counterexample: the brace family is NOT interchangeable with the
paren family inside a token — `a}` lexes as the single Identifier `a}`
while `a)` lexes as Identifier `a` followed by CloseGroup, so replacing
`)` by `}` changes the token-class sequence. -/
theorem C4_counterexample :
    (tokenStreamRun true ['a', rbraceChar]).1.map Tok.ty =
        [.Identifier ['a', rbraceChar]] ∧
      (tokenStreamRun true ['a', ')']).1.map Tok.ty =
        [.Identifier ['a'], .CloseParen] ∧
      (tokenStreamRun true ['a', rbraceChar]).1.map Tok.ty ≠
        (tokenStreamRun true ['a', ')']).1.map Tok.ty :=
  ⟨rfl, rfl, by decide⟩

/-- C4 (amended): at dispatch each of `(`, `[`, `{` lexes as OpenGroup and
each of `)`, `]`, `}` as CloseGroup; `(`, `[`, `)`, `]` all terminate an
in-progress word, number, or hash token identically (every scanning loop
stops on any of the four without consuming it), while `{` and `}` do not
terminate an in-progress token — they are absorbed into it (the word and
hash loops consume them; the number loops eat them and abort to word
reading). -/
theorem C4_bracket_families (rem : Str) :
    (∀ c, (c = '(' ∨ c = '[' ∨ c = lbraceChar) →
      lexNext (c :: rem) = .tok (.ok .OpenParen) [] [c] rem) ∧
    (∀ c, (c = ')' ∨ c = ']' ∨ c = rbraceChar) →
      lexNext (c :: rem) = .tok (.ok .CloseParen) [] [c] rem) ∧
    (∀ c, (c = '(' ∨ c = '[' ∨ c = ')' ∨ c = ']') →
      readWordLoop (c :: rem) = ([], c :: rem) ∧
      readHashLoop (c :: rem) = ([], c :: rem) ∧
      numLoop1 (c :: rem) = .stopped [] (c :: rem) ∧
      (∀ hasE, numLoop2 hasE (c :: rem) = .stopped [] (c :: rem)) ∧
      numLoop3 (c :: rem) = .stopped [] (c :: rem)) ∧
    (∀ b, (b = lbraceChar ∨ b = rbraceChar) →
      readWordLoop (b :: rem) =
        (b :: (readWordLoop rem).1, (readWordLoop rem).2) ∧
      readHashLoop (b :: rem) =
        (b :: (readHashLoop rem).1, (readHashLoop rem).2) ∧
      numLoop1 (b :: rem) = .aborted [b] rem ∧
      (∀ hasE, numLoop2 hasE (b :: rem) = .aborted [b] rem) ∧
      numLoop3 (b :: rem) = .aborted [b] rem) := by
  refine ⟨?_, ?_, ?_, ?_⟩
  · rintro c (rfl | rfl | rfl) <;> rfl
  · rintro c (rfl | rfl | rfl) <;> rfl
  · rintro c (rfl | rfl | rfl | rfl) <;>
      exact ⟨rfl, rfl, rfl, fun _ => rfl, rfl⟩
  · rintro b (rfl | rfl) <;>
      refine ⟨?_, ?_, rfl, fun _ => rfl, rfl⟩
    · have e : readWordLoop (lbraceChar :: rem) =
          (match readWordLoop rem with
           | (cs, r) => (lbraceChar :: cs, r) : Str × Str) := rfl
      cases h : readWordLoop rem with
      | mk a bs => rw [e, h]
    · have e : readHashLoop (lbraceChar :: rem) =
          (match readHashLoop rem with
           | (cs, r) => (lbraceChar :: cs, r) : Str × Str) := rfl
      cases h : readHashLoop rem with
      | mk a bs => rw [e, h]
    · have e : readWordLoop (rbraceChar :: rem) =
          (match readWordLoop rem with
           | (cs, r) => (rbraceChar :: cs, r) : Str × Str) := rfl
      cases h : readWordLoop rem with
      | mk a bs => rw [e, h]
    · have e : readHashLoop (rbraceChar :: rem) =
          (match readHashLoop rem with
           | (cs, r) => (rbraceChar :: cs, r) : Str × Str) := rfl
      cases h : readHashLoop rem with
      | mk a bs => rw [e, h]

/-- C6: plus/minus asymmetry. -/
theorem C6_plus_minus_asymmetry :
    (∀ (c : Char) (rest : Str), rustIsNumeric c = true →
        lexNext ('+' :: c :: rest) = numStep [] ['+'] (c :: rest)) ∧
    (∀ (c : Char) (rest : Str), rustIsNumeric c = false →
        lexNext ('+' :: c :: rest) =
          .tok (.ok (.Identifier ['+'])) [] ['+'] (c :: rest)) ∧
    lexNext ['+'] = .tok (.ok (.Identifier ['+'])) [] ['+'] [] ∧
    (∀ (c : Char) (rest : Str), rustIsNumeric c = true →
        lexNext ('-' :: c :: rest) = numStep [] ['-'] (c :: rest)) ∧
    (∀ (c : Char) (rest : Str), rustIsNumeric c = false →
        lexNext ('-' :: c :: rest) = wordStep [] ['-'] (c :: rest)) ∧
    (tokenStreamRun true "+abc".data).1.map Tok.ty =
      [.Identifier ['+'], .Identifier "abc".data] ∧
    (tokenStreamRun true "-abc".data).1.map Tok.ty =
      [.Identifier "-abc".data] := by
  refine ⟨?_, ?_, rfl, ?_, ?_, rfl, rfl⟩
  · intro c rest h
    show (if rustIsNumeric c = true
        then numStep [] ['+'] (c :: rest)
        else .tok (.ok (.Identifier ['+'])) [] ['+'] (c :: rest)) =
      numStep [] ['+'] (c :: rest)
    rw [if_pos h]
  · intro c rest h
    show (if rustIsNumeric c = true
        then numStep [] ['+'] (c :: rest)
        else .tok (.ok (.Identifier ['+'])) [] ['+'] (c :: rest)) =
      .tok (.ok (.Identifier ['+'])) [] ['+'] (c :: rest)
    rw [if_neg (by simp [h])]
  · intro c rest h
    show (if rustIsNumeric c = true
        then numStep [] ['-'] (c :: rest)
        else wordStep [] ['-'] (c :: rest)) =
      numStep [] ['-'] (c :: rest)
    rw [if_pos h]
  · intro c rest h
    show (if rustIsNumeric c = true
        then numStep [] ['-'] (c :: rest)
        else wordStep [] ['-'] (c :: rest)) =
      wordStep [] ['-'] (c :: rest)
    rw [if_neg (by simp [h])]

/-- C6 witness. -/
theorem C6_plus_minus_asymmetry_witness :
    lexNext ('+' :: '1' :: []) = numStep [] ['+'] ('1' :: []) ∧
      lexNext ('+' :: 'a' :: []) =
        .tok (.ok (.Identifier ['+'])) [] ['+'] ('a' :: []) ∧
      lexNext ('-' :: '1' :: []) = numStep [] ['-'] ('1' :: []) ∧
      lexNext ('-' :: 'a' :: []) = wordStep [] ['-'] ('a' :: []) :=
  ⟨C6_plus_minus_asymmetry.1 '1' [] (by decide),
   C6_plus_minus_asymmetry.2.1 'a' [] (by decide),
   C6_plus_minus_asymmetry.2.2.2.1 '1' [] (by decide),
   C6_plus_minus_asymmetry.2.2.2.2.1 'a' [] (by decide)⟩

end Steel
